import Mathlib

/-!
Shallow embedding of the uniswap-analytics dashboard (src/src/index.js and
the historical variant src/.history/src/App_20240914233132.js).

Conventions of the embedding:
* JavaScript numbers produced by parseFloat on the amountUSD decimal strings
  are modelled as exact rationals (ℚ); parseInt on the timestamp strings is
  modelled as a natural number.  The fields of the records therefore carry
  the parsed numeric values.
* Dates are modelled by their getTime() value in milliseconds (a natural
  number); date arithmetic (fromUnixTime, setMinutes, getMinutes) is
  modelled in UTC.
* The for-loop over chunk start indices is modelled by structural recursion
  on a fuel argument initialised to the list length, so that concrete
  inputs evaluate by kernel reduction.
-/

namespace UniswapAnalytics

/-- A swap record as returned by SWAP_QUERY: id, amountUSD (parsed), timestamp
(parsed), and the two token symbols. -/
structure Swap where
  id : String
  amountUSD : ℚ
  timestamp : ℕ
  token0Symbol : String
  token1Symbol : String
deriving DecidableEq, Repr

/-- A chart point pushed by the count-bucket aggregation loop in index.js:
x is new Date(avgTimestamp * 1000) (position in milliseconds, exact rational
since avgTimestamp is a division), y is the chunk total amount. -/
structure Point where
  x : ℚ
  y : ℚ
deriving DecidableEq, Repr

/-- Aggregation of one chunk, as in the loop body of index.js lines 120-127:
totalAmountUSD = chunk.reduce((sum, swap) => sum + parseFloat(swap.amountUSD), 0),
avgTimestamp = chunk.reduce((sum, swap) => sum + parseInt(swap.timestamp), 0) / chunk.length,
and the pushed point is { x: new Date(avgTimestamp * 1000), y: totalAmountUSD }. -/
def aggregateChunk (chunk : List Swap) : Point :=
  { x := ((chunk.map (fun s => (s.timestamp : ℚ))).sum / (chunk.length : ℚ)) * 1000
    y := (chunk.map (fun s => s.amountUSD)).sum }

/-- Fuel-indexed embedding of the loop
for (let i = 0; i < swaps.length; i += 100) at index.js line 119: each
iteration takes the slice swaps.slice(i, i + 100) and pushes its aggregate.
The fuel bounds the number of iterations; it is initialised to the list
length, which always suffices. -/
def chunkLoop : ℕ → List Swap → List Point
  | 0, _ => []
  | _, [] => []
  | f + 1, swaps => aggregateChunk (swaps.take 100) :: chunkLoop f (swaps.drop 100)

/-- The aggregateData array built by the count-bucket Swaps component
(index.js lines 118-128). -/
def aggregateData (swaps : List Swap) : List Point :=
  chunkLoop swaps.length swaps

/-- Fuel-indexed list of the chunks swaps.slice(i, i + 100) visited by the
count-bucket loop, in visit order. -/
def chunksLoop : ℕ → List Swap → List (List Swap)
  | 0, _ => []
  | _, [] => []
  | f + 1, swaps => swaps.take 100 :: chunksLoop f (swaps.drop 100)

/-- The chunks visited by the count-bucket loop of index.js. -/
def chunksOf (swaps : List Swap) : List (List Swap) :=
  chunksLoop swaps.length swaps

/-- The timeKey computed by the time-bucket variant (App_20240914233132.js
lines 97-104), date arithmetic taken in UTC: fromUnixTime(t), then
setMinutes(Math.floor(getMinutes() / 10) * 10, 0, 0), then getTime().
getMinutes() is (t / 60) % 60, zeroing seconds and milliseconds removes
t % 60, and the result is converted to milliseconds. -/
def roundTimestamp (t : ℕ) : ℕ :=
  (t - t % 60 - t / 60 % 60 * 60 + t / 60 % 60 / 10 * 10 * 60) * 1000

/-- One step of acc[timeKey] bookkeeping (App_20240914233132.js lines
106-114): a missing key is created as { totalAmount: 0, count: 0 } and then
amt is added to totalAmount and 1 to count; an existing entry is updated in
place, preserving the insertion order of keys. Entries are (key,
totalAmount, count). -/
def bumpKey (k : ℕ) (amt : ℚ) : List (ℕ × ℚ × ℕ) → List (ℕ × ℚ × ℕ)
  | [] => [(k, amt, 1)]
  | e :: rest =>
    if e.1 = k then (e.1, e.2.1 + amt, e.2.2 + 1) :: rest
    else e :: bumpKey k amt rest

/-- The aggregatedData accumulator object of the time-bucket variant
(App_20240914233132.js lines 97-117): swaps.reduce over the fetched order,
keyed by roundTimestamp of the swap timestamp, accumulating parseFloat
amounts and counts. -/
def aggregatedData (swaps : List Swap) : List (ℕ × ℚ × ℕ) :=
  swaps.foldl (fun acc s => bumpKey (roundTimestamp s.timestamp) s.amountUSD acc) []

/-- A point of the time-bucket chart series: x the bucket key in
milliseconds, y the bucket total, count the bucket member count. -/
structure ChartPoint where
  x : ℕ
  y : ℚ
  count : ℕ
deriving DecidableEq, Repr

/-- The chartData series of the time-bucket variant (App_20240914233132.js
lines 120-124): Object.entries mapped to points and sorted ascending by x
with the comparator (a, b) => a.x - b.x. JavaScript sort is stable; it is
modelled by a stable sort with respect to a.x ≤ b.x. -/
def chartData (swaps : List Swap) : List ChartPoint :=
  List.insertionSort (fun a b => a.x ≤ b.x)
    ((aggregatedData swaps).map (fun e => ⟨e.1, e.2.1, e.2.2⟩))

/-- A token record as returned by TOKEN_VOLUME_QUERY: id, symbol, volumeUSD
(parsed). -/
structure Token where
  id : String
  symbol : String
  volumeUSD : ℚ
deriving DecidableEq, Repr

/-- A pool record as returned by TOP_PAIRS_QUERY. -/
structure Pool where
  id : String
  token0Symbol : String
  token1Symbol : String
  volumeUSD : ℚ
deriving DecidableEq, Repr

/-- A day datum as returned by PROTOCOL_STATS_QUERY: date (unix day start),
tvlUSD, volumeUSD, feesUSD (parsed). -/
structure DayDatum where
  date : ℕ
  tvlUSD : ℚ
  volumeUSD : ℚ
  feesUSD : ℚ
deriving DecidableEq, Repr

/-- The three states exposed by useQuery at a section boundary: loading,
error (with error.message), or data. -/
inductive QueryState (α : Type) where
  | pending
  | failed (message : String)
  | succeeded (data : α)

/-- What a section renders: the loading skeleton, the ErrorMessage alert, or
one of the chart views. Each chart view carries the data series handed to
the charting library. -/
inductive Rendered where
  | skeleton
  | errorDisplay (content : String)
  | swapsView (chart : List Point) (latest : List Swap)
  | barView (labels : List String) (values : List ℚ)
  | statsView (labels : List ℕ) (tvl : List ℚ) (volume : List ℚ) (fees : List ℚ)

/-- Text content of the ErrorMessage component (index.js lines 89-93): the
Alert renders the literal text Error: followed by the message. -/
def ErrorMessage (message : String) : String :=
  "Error: " ++ message

/-- The Swaps component (index.js lines 109-214): loading yields the
skeleton, error yields the ErrorMessage alert, and data yields the chart
built from aggregateData together with the five most recent swaps. The
missing-data default (data?.swaps or the empty list) is the succeeded list
itself. -/
def renderSwaps : QueryState (List Swap) → Rendered
  | QueryState.pending => Rendered.skeleton
  | QueryState.failed m => Rendered.errorDisplay (ErrorMessage m)
  | QueryState.succeeded swaps => Rendered.swapsView (aggregateData swaps) (swaps.take 5)

/-- The TokenVolume component (index.js lines 216-258): on data, labels are
tokens.map(token => token.symbol) and the dataset is
tokens.map(token => parseFloat(token.volumeUSD)), with no padding. -/
def renderTokenVolume : QueryState (List Token) → Rendered
  | QueryState.pending => Rendered.skeleton
  | QueryState.failed m => Rendered.errorDisplay (ErrorMessage m)
  | QueryState.succeeded tokens =>
      Rendered.barView (tokens.map Token.symbol) (tokens.map Token.volumeUSD)

/-- The TopPairs component (index.js lines 260-302): labels are the
token0/token1 symbol pairs and the dataset the parsed pool volumes. -/
def renderTopPairs : QueryState (List Pool) → Rendered
  | QueryState.pending => Rendered.skeleton
  | QueryState.failed m => Rendered.errorDisplay (ErrorMessage m)
  | QueryState.succeeded pools =>
      Rendered.barView
        (pools.map (fun p => p.token0Symbol ++ "/" ++ p.token1Symbol))
        (pools.map Pool.volumeUSD)

/-- The ProtocolStats component (index.js lines 304-407): one shared label
axis from the dates and three independent series. -/
def renderProtocolStats : QueryState (List DayDatum) → Rendered
  | QueryState.pending => Rendered.skeleton
  | QueryState.failed m => Rendered.errorDisplay (ErrorMessage m)
  | QueryState.succeeded ds =>
      Rendered.statsView (ds.map DayDatum.date) (ds.map DayDatum.tvlUSD)
        (ds.map DayDatum.volumeUSD) (ds.map DayDatum.feesUSD)

/-- The updateQuery callback of the pagination variant
(App_20240914233132.js lines 587-595): a missing fetchMoreResult keeps prev,
otherwise the result is { swaps: [...prev.swaps, ...fetchMoreResult.swaps] }. -/
def updateQuery (prev : List Swap) (fetchMoreResult : Option (List Swap)) : List Swap :=
  match fetchMoreResult with
  | none => prev
  | some next => prev ++ next

/-- The fields of a swap that the aggregations read: amountUSD and
timestamp. -/
def proj (s : Swap) : ℚ × ℕ :=
  (s.amountUSD, s.timestamp)

/-- Concrete sample swaps used to instantiate proved properties. -/
def swapA : Swap :=
  ⟨"0xa", 10, 1000, "USDC", "WETH"⟩

/-- Second concrete sample swap. -/
def swapB : Swap :=
  ⟨"0xb", 20, 1001, "WBTC", "WETH"⟩

/-- A 101-swap list ordered by timestamp descending, as SWAP_QUERY delivers
(orderDirection: desc): one hundred swaps at timestamp 200 followed by one
at timestamp 100. It spans two count-buckets. -/
def cexSwaps : List Swap :=
  List.replicate 100 ⟨"0xc", 0, 200, "USDC", "WETH"⟩ ++ [⟨"0xd", 0, 100, "USDC", "WETH"⟩]

/-- A concrete sample swap agreeing with swapA on amountUSD and timestamp
but differing in id and token symbols. -/
def swapC : Swap :=
  ⟨"0xz", 10, 1000, "DAI", "WBTC"⟩

/-- A concrete token record. -/
def tokenA : Token :=
  ⟨"0xt", "USDC", 5⟩

/-- A concrete pool record. -/
def poolA : Pool :=
  ⟨"0xp", "USDC", "WETH", 7⟩

theorem chunkLoop_nil (f : ℕ) : chunkLoop f [] = [] := by
  cases f <;> rfl

theorem chunkLoop_fuel_eq (f : ℕ) : ∀ (g : ℕ) (l : List Swap),
    l.length ≤ f → l.length ≤ g → chunkLoop f l = chunkLoop g l := by
  induction f with
  | zero =>
    intro g l hf _
    have : l = [] := List.length_eq_zero.mp (Nat.le_zero.mp hf)
    subst this
    rw [chunkLoop_nil, chunkLoop_nil]
  | succ f ih =>
    intro g l hf hg
    cases l with
    | nil => rw [chunkLoop_nil, chunkLoop_nil]
    | cons s rest =>
      cases g with
      | zero => simp at hg
      | succ g =>
        show aggregateChunk _ :: chunkLoop f _ = aggregateChunk _ :: chunkLoop g _
        have hd : ((s :: rest).drop 100).length ≤ rest.length := by
          rw [List.length_drop]
          simp
        have hf' : rest.length ≤ f := by simpa using hf
        have hg' : rest.length ≤ g := by simpa using hg
        rw [ih g ((s :: rest).drop 100) (le_trans hd hf') (le_trans hd hg')]

theorem aggregateData_cons (s : Swap) (rest : List Swap) :
    aggregateData (s :: rest) =
      aggregateChunk ((s :: rest).take 100) :: aggregateData ((s :: rest).drop 100) := by
  show aggregateChunk _ :: chunkLoop rest.length _ = _
  rw [aggregateData,
    chunkLoop_fuel_eq rest.length ((s :: rest).drop 100).length _
      (by rw [List.length_drop]; simp) le_rfl]

theorem chunksLoop_nil (f : ℕ) : chunksLoop f [] = [] := by
  cases f <;> rfl

theorem chunksLoop_fuel_eq (f : ℕ) : ∀ (g : ℕ) (l : List Swap),
    l.length ≤ f → l.length ≤ g → chunksLoop f l = chunksLoop g l := by
  induction f with
  | zero =>
    intro g l hf _
    have : l = [] := List.length_eq_zero.mp (Nat.le_zero.mp hf)
    subst this
    rw [chunksLoop_nil, chunksLoop_nil]
  | succ f ih =>
    intro g l hf hg
    cases l with
    | nil => rw [chunksLoop_nil, chunksLoop_nil]
    | cons s rest =>
      cases g with
      | zero => simp at hg
      | succ g =>
        show List.take 100 _ :: chunksLoop f _ = List.take 100 _ :: chunksLoop g _
        have hd : ((s :: rest).drop 100).length ≤ rest.length := by
          rw [List.length_drop]
          simp
        have hf' : rest.length ≤ f := by simpa using hf
        have hg' : rest.length ≤ g := by simpa using hg
        rw [ih g ((s :: rest).drop 100) (le_trans hd hf') (le_trans hd hg')]

theorem chunksOf_cons (s : Swap) (rest : List Swap) :
    chunksOf (s :: rest) = (s :: rest).take 100 :: chunksOf ((s :: rest).drop 100) := by
  show List.take 100 _ :: chunksLoop rest.length _ = _
  rw [chunksOf,
    chunksLoop_fuel_eq rest.length ((s :: rest).drop 100).length _
      (by rw [List.length_drop]; simp) le_rfl]

theorem aggregateData_eq_map_chunksOf (l : List Swap) :
    aggregateData l = (chunksOf l).map aggregateChunk := by
  cases l with
  | nil => rfl
  | cons s rest =>
    rw [aggregateData_cons, chunksOf_cons, List.map_cons,
      aggregateData_eq_map_chunksOf ((s :: rest).drop 100)]
termination_by l.length
decreasing_by
  simp only [List.length_drop, List.length_cons]
  omega

theorem aggregateData_sum (l : List Swap) :
    ((aggregateData l).map Point.y).sum = (l.map Swap.amountUSD).sum := by
  cases l with
  | nil => rfl
  | cons s rest =>
    rw [aggregateData_cons, List.map_cons, List.sum_cons,
      aggregateData_sum ((s :: rest).drop 100)]
    conv_rhs => rw [← List.take_append_drop 100 (s :: rest)]
    rw [List.map_append, List.sum_append]
    rfl
termination_by l.length
decreasing_by
  simp only [List.length_drop, List.length_cons]
  omega

theorem bumpKey_sum (k : ℕ) (amt : ℚ) (acc : List (ℕ × ℚ × ℕ)) :
    ((bumpKey k amt acc).map (fun e => e.2.1)).sum = amt + (acc.map (fun e => e.2.1)).sum := by
  induction acc with
  | nil => simp [bumpKey]
  | cons e rest ih =>
    by_cases h : e.1 = k
    · simp [bumpKey, h]
      ring
    · simp [bumpKey, h, ih]
      ring

theorem foldl_bump_sum (l : List Swap) :
    ∀ acc : List (ℕ × ℚ × ℕ),
      (((l.foldl (fun acc s => bumpKey (roundTimestamp s.timestamp) s.amountUSD acc)
        acc).map (fun e => e.2.1)).sum) =
        (acc.map (fun e => e.2.1)).sum + (l.map Swap.amountUSD).sum := by
  induction l with
  | nil => simp
  | cons s rest ih =>
    intro acc
    rw [List.foldl_cons, ih, bumpKey_sum]
    simp [Swap.amountUSD]
    ring

theorem chartData_sum (swaps : List Swap) :
    ((chartData swaps).map ChartPoint.y).sum = (swaps.map Swap.amountUSD).sum := by
  have hperm :
      (chartData swaps).Perm
        ((aggregatedData swaps).map (fun e => ⟨e.1, e.2.1, e.2.2⟩)) :=
    List.perm_insertionSort _ _
  rw [(hperm.map ChartPoint.y).sum_eq, List.map_map]
  have : (ChartPoint.y ∘ fun e : ℕ × ℚ × ℕ => ChartPoint.mk e.1 e.2.1 e.2.2) =
      fun e : ℕ × ℚ × ℕ => e.2.1 := rfl
  rw [this, aggregatedData, foldl_bump_sum]
  simp

/-- C1: For every swap list in which every amountUSD string parses to a
number (parsing is modelled by the parsed rational field), the sum of the
bucket totals produced by the aggregation — under the count-bucket policy
with chunk size 100 (aggregateData) and under the time-bucket policy with
10-minute intervals (chartData) — equals the sum of the raw swap USD
amounts of the input list. -/
theorem claim_C1_aggregation_preserves_total (swaps : List Swap) :
    ((aggregateData swaps).map Point.y).sum = (swaps.map Swap.amountUSD).sum ∧
      ((chartData swaps).map ChartPoint.y).sum = (swaps.map Swap.amountUSD).sum :=
  ⟨aggregateData_sum swaps, chartData_sum swaps⟩

/-- C3: For the empty swap list, the aggregation under either policy yields
zero buckets, the count-bucket loop visits no chunks, and the Swaps section
hands the chart an empty data series. -/
theorem claim_C3_empty_input_zero_buckets :
    aggregateData [] = [] ∧ chartData [] = [] ∧ chunksOf [] = [] ∧
      renderSwaps (QueryState.succeeded []) = Rendered.swapsView [] [] :=
  ⟨rfl, rfl, rfl, rfl⟩

/-- C5: Under the time-bucket policy with interval width 600 seconds, the
timeKey of every swap timestamp is the timestamp rounded down to its
600-second interval (in milliseconds), and two swaps with timestamps 0 and
300 map to the same bucket with key 0, whose total is the sum of the two
amounts and whose count is 2. -/
theorem claim_C5_time_bucket_key :
    (∀ t : ℕ, roundTimestamp t = t / 600 * 600 * 1000) ∧
      chartData [⟨"0x1", 10, 0, "USDC", "WETH"⟩, ⟨"0x2", 20, 300, "WBTC", "WETH"⟩] =
        [⟨0, 30, 2⟩] := by
  constructor
  · intro t
    unfold roundTimestamp
    omega
  · norm_num [chartData, aggregatedData, bumpKey, roundTimestamp, List.insertionSort]

/-- C4: For every section and every failed query state with message m, the
section renders the ErrorMessage alert, whose content contains m, and
renders no chart view; the render function is total, so the error value is
surfaced as a displayable message rather than thrown past the boundary. -/
theorem claim_C4_error_boundary (m : String) :
    renderSwaps (QueryState.failed m) = Rendered.errorDisplay (ErrorMessage m) ∧
      renderTokenVolume (QueryState.failed m) = Rendered.errorDisplay (ErrorMessage m) ∧
      renderTopPairs (QueryState.failed m) = Rendered.errorDisplay (ErrorMessage m) ∧
      renderProtocolStats (QueryState.failed m) = Rendered.errorDisplay (ErrorMessage m) ∧
      (∃ pre suf, ErrorMessage m = pre ++ m ++ suf) ∧
      (∀ chart latest, renderSwaps (QueryState.failed m) ≠ Rendered.swapsView chart latest) ∧
      (∀ labels values,
        renderTokenVolume (QueryState.failed m) ≠ Rendered.barView labels values) ∧
      (∀ labels values,
        renderTopPairs (QueryState.failed m) ≠ Rendered.barView labels values) ∧
      (∀ labels t v fees,
        renderProtocolStats (QueryState.failed m) ≠ Rendered.statsView labels t v fees) := by
  refine ⟨rfl, rfl, rfl, rfl, ⟨"Error: ", "", ?_⟩, ?_, ?_, ?_, ?_⟩
  · simp [ErrorMessage]
  · exact fun _ _ h => Rendered.noConfusion h
  · exact fun _ _ h => Rendered.noConfusion h
  · exact fun _ _ h => Rendered.noConfusion h
  · exact fun _ _ _ _ h => Rendered.noConfusion h

/-- C7: For every token list of length below 5 and pool list of length
below 5, the rendered bar charts contain exactly one label and one value
per record, in the list order, with no padding to 5 entries. -/
theorem claim_C7_top5_no_padding (tokens : List Token) (pools : List Pool)
    (htok : tokens.length < 5) (hpool : pools.length < 5) :
    renderTokenVolume (QueryState.succeeded tokens) =
        Rendered.barView (tokens.map Token.symbol) (tokens.map Token.volumeUSD) ∧
      (tokens.map Token.symbol).length = tokens.length ∧
      (tokens.map Token.volumeUSD).length = tokens.length ∧
      renderTopPairs (QueryState.succeeded pools) =
        Rendered.barView (pools.map (fun p => p.token0Symbol ++ "/" ++ p.token1Symbol))
          (pools.map Pool.volumeUSD) ∧
      (pools.map (fun p => p.token0Symbol ++ "/" ++ p.token1Symbol)).length = pools.length ∧
      (pools.map Pool.volumeUSD).length = pools.length :=
  ⟨rfl, List.length_map _ _, List.length_map _ _, rfl, List.length_map _ _,
    List.length_map _ _⟩

/-- Witness for C7 at a one-token, one-pool input. -/
theorem claim_C7_top5_no_padding_witness :
    [tokenA].length < 5 ∧ [poolA].length < 5 ∧
      (renderTokenVolume (QueryState.succeeded [tokenA]) =
          Rendered.barView ([tokenA].map Token.symbol) ([tokenA].map Token.volumeUSD) ∧
        ([tokenA].map Token.symbol).length = [tokenA].length ∧
        ([tokenA].map Token.volumeUSD).length = [tokenA].length ∧
        renderTopPairs (QueryState.succeeded [poolA]) =
          Rendered.barView
            ([poolA].map (fun p => p.token0Symbol ++ "/" ++ p.token1Symbol))
            ([poolA].map Pool.volumeUSD) ∧
        ([poolA].map (fun p => p.token0Symbol ++ "/" ++ p.token1Symbol)).length =
          [poolA].length ∧
        ([poolA].map Pool.volumeUSD).length = [poolA].length) :=
  ⟨by norm_num, by norm_num,
    claim_C7_top5_no_padding [tokenA] [poolA] (by norm_num) (by norm_num)⟩

/-- C8: In the pagination variant, the load-more update produces exactly
the prior list followed by the fetched page: the prior elements and their
order are unchanged and the new records are appended after them; a missing
fetchMoreResult keeps the prior list. -/
theorem claim_C8_pagination_appends (prev next : List Swap) :
    updateQuery prev (some next) = prev ++ next ∧
      (updateQuery prev (some next)).take prev.length = prev ∧
      (updateQuery prev (some next)).drop prev.length = next ∧
      updateQuery prev none = prev :=
  ⟨rfl, List.take_left prev next, List.drop_left prev next, rfl⟩

theorem aggregateData_eq_of_ne_nil (l : List Swap) (h : l ≠ []) :
    aggregateData l = aggregateChunk (l.take 100) :: aggregateData (l.drop 100) := by
  cases l with
  | nil => exact absurd rfl h
  | cons s rest => exact aggregateData_cons s rest

theorem aggregateData_ne_nil (l : List Swap) (h : l ≠ []) : aggregateData l ≠ [] := by
  rw [aggregateData_eq_of_ne_nil l h]
  simp

theorem aggregateData_small (l : List Swap) (h : l ≠ []) (h100 : l.length ≤ 100) :
    aggregateData l = [aggregateChunk l] := by
  rw [aggregateData_eq_of_ne_nil l h, List.take_of_length_le h100,
    List.drop_eq_nil_of_le h100]
  rfl

theorem chunksOf_small (l : List Swap) (h : l ≠ []) (h100 : l.length ≤ 100) :
    chunksOf l = [l] := by
  cases l with
  | nil => exact absurd rfl h
  | cons s rest =>
    rw [chunksOf_cons, List.take_of_length_le h100, List.drop_eq_nil_of_le h100]
    rfl

theorem chunksOf_spec (l : List Swap) :
    ∀ c ∈ chunksOf l, c ≠ [] ∧ c.length ≤ 100 ∧ ∀ x ∈ c, x ∈ l := by
  cases l with
  | nil => simp [chunksOf, chunksLoop]
  | cons s rest =>
    rw [chunksOf_cons]
    intro c hc
    rcases List.mem_cons.mp hc with hhead | htail
    · subst hhead
      refine ⟨?_, ?_, ?_⟩
      · apply List.ne_nil_of_length_pos
        rw [List.length_take]
        simp
      · rw [List.length_take]
        simp
      · exact fun x hx => List.mem_of_mem_take hx
    · obtain ⟨hne, hlen, hsub⟩ := chunksOf_spec ((s :: rest).drop 100) c htail
      exact ⟨hne, hlen, fun x hx => List.mem_of_mem_drop (hsub x hx)⟩
termination_by l.length
decreasing_by
  simp only [List.length_drop, List.length_cons]
  omega

/-- C9: Every chunk visited by the count-bucket loop is non-empty with
length between 1 and 100, so the division by chunk.length in the timestamp
average never divides by zero and the first and last elements of the chunk
exist; and aggregateData is exactly the per-chunk aggregate of those
chunks. -/
theorem claim_C9_chunks_safe (swaps : List Swap) (c : List Swap) (hc : c ∈ chunksOf swaps) :
    c ≠ [] ∧ 1 ≤ c.length ∧ c.length ≤ 100 ∧ ((c.length : ℚ) ≠ 0) ∧
      c.head?.isSome ∧ c.getLast?.isSome ∧
      aggregateData swaps = (chunksOf swaps).map aggregateChunk := by
  obtain ⟨hne, hlen, -⟩ := chunksOf_spec swaps c hc
  have hpos : 0 < c.length := List.length_pos.mpr hne
  refine ⟨hne, hpos, hlen, ?_, ?_, ?_, aggregateData_eq_map_chunksOf swaps⟩
  · exact_mod_cast Nat.pos_iff_ne_zero.mp hpos
  · cases c with
    | nil => exact absurd rfl hne
    | cons a t => rfl
  · rw [List.getLast?_isSome]
    exact hne

/-- Witness for C9 at the singleton swap list, whose only chunk is the list
itself. -/
theorem claim_C9_chunks_safe_witness :
    [swapA] ∈ chunksOf [swapA] ∧
      ([swapA] ≠ [] ∧ 1 ≤ [swapA].length ∧ [swapA].length ≤ 100 ∧
        (([swapA].length : ℚ) ≠ 0) ∧
        [swapA].head?.isSome ∧ [swapA].getLast?.isSome ∧
        aggregateData [swapA] = (chunksOf [swapA]).map aggregateChunk) := by
  have hmem : [swapA] ∈ chunksOf [swapA] := by
    rw [chunksOf_small [swapA] (by simp) (by simp)]
    exact List.mem_singleton.mpr rfl
  exact ⟨hmem, claim_C9_chunks_safe [swapA] [swapA] hmem⟩

theorem le_sum_timestamps (c : List Swap) (m : ℚ) (h : ∀ a ∈ c, m ≤ (a.timestamp : ℚ)) :
    m * c.length ≤ (c.map (fun s => (s.timestamp : ℚ))).sum := by
  induction c with
  | nil => simp
  | cons a rest ih =>
    simp only [List.map_cons, List.sum_cons, List.length_cons]
    have h1 : m ≤ (a.timestamp : ℚ) := h a (by simp)
    have h2 := ih (fun x hx => h x (by simp [hx]))
    push_cast
    have hsplit : m * ((rest.length : ℚ) + 1) = m * rest.length + m := by ring
    rw [hsplit]
    linarith

theorem sum_timestamps_le (c : List Swap) (M : ℚ) (h : ∀ a ∈ c, (a.timestamp : ℚ) ≤ M) :
    (c.map (fun s => (s.timestamp : ℚ))).sum ≤ M * c.length := by
  induction c with
  | nil => simp
  | cons a rest ih =>
    simp only [List.map_cons, List.sum_cons, List.length_cons]
    have h1 : (a.timestamp : ℚ) ≤ M := h a (by simp)
    have h2 := ih (fun x hx => h x (by simp [hx]))
    push_cast
    have hsplit : M * ((rest.length : ℚ) + 1) = M * rest.length + M := by ring
    rw [hsplit]
    linarith

theorem aggregateChunk_x_le (c d : List Swap) (hc : c ≠ []) (hd : d ≠ [])
    (h : ∀ a ∈ c, ∀ b ∈ d, b.timestamp ≤ a.timestamp) :
    (aggregateChunk d).x ≤ (aggregateChunk c).x := by
  have hc0 : (0 : ℚ) < c.length := by
    exact_mod_cast List.length_pos.mpr hc
  have hd0 : (0 : ℚ) < d.length := by
    exact_mod_cast List.length_pos.mpr hd
  have key : ∀ b ∈ d,
      (b.timestamp : ℚ) ≤ (c.map (fun s => (s.timestamp : ℚ))).sum / c.length := by
    intro b hb
    rw [le_div_iff₀ hc0]
    exact le_sum_timestamps c _ (fun a ha => by exact_mod_cast h a ha b hb)
  have h2 := sum_timestamps_le d _ key
  have hdiv : (d.map (fun s => (s.timestamp : ℚ))).sum / d.length ≤
      (c.map (fun s => (s.timestamp : ℚ))).sum / c.length := by
    rw [div_le_iff₀ hd0]
    exact h2
  show ((d.map (fun s => (s.timestamp : ℚ))).sum / (d.length : ℚ)) * 1000 ≤
    ((c.map (fun s => (s.timestamp : ℚ))).sum / (c.length : ℚ)) * 1000
  have h1000 : (0 : ℚ) ≤ 1000 := by norm_num
  exact mul_le_mul_of_nonneg_right hdiv h1000

theorem aggregateData_antitone_aux (n : ℕ) : ∀ l : List Swap, l.length ≤ n →
    l.Pairwise (fun a b => b.timestamp ≤ a.timestamp) →
    (aggregateData l).Pairwise (fun p q => q.x ≤ p.x) := by
  induction n with
  | zero =>
    intro l hn _
    have : l = [] := List.length_eq_zero.mp (Nat.le_zero.mp hn)
    subst this
    exact List.Pairwise.nil
  | succ n ih =>
    intro l hn h
    cases l with
    | nil => exact List.Pairwise.nil
    | cons s rest =>
      rw [aggregateData_cons]
      have h' : ((s :: rest).take 100 ++ (s :: rest).drop 100).Pairwise
          (fun a b => b.timestamp ≤ a.timestamp) := by
        rw [List.take_append_drop]
        exact h
      obtain ⟨hTake, hDrop, hCross⟩ := List.pairwise_append.mp h'
      refine List.pairwise_cons.mpr ⟨?_, ?_⟩
      · intro p hp
        rw [aggregateData_eq_map_chunksOf] at hp
        obtain ⟨c, hcmem, hpc⟩ := List.mem_map.mp hp
        obtain ⟨hcne, -, hcsub⟩ := chunksOf_spec _ c hcmem
        have htake_ne : (s :: rest).take 100 ≠ [] := by
          apply List.ne_nil_of_length_pos
          rw [List.length_take]
          simp
        subst hpc
        exact aggregateChunk_x_le _ c htake_ne hcne
          (fun a ha b hb => hCross a ha b (hcsub b hb))
      · apply ih ((s :: rest).drop 100) _ hDrop
        rw [List.length_drop]
        simp only [List.length_cons] at hn ⊢
        omega

theorem aggregateData_antitone (l : List Swap)
    (h : l.Pairwise (fun a b => b.timestamp ≤ a.timestamp)) :
    (aggregateData l).Pairwise (fun p q => q.x ≤ p.x) :=
  aggregateData_antitone_aux l.length l le_rfl h

theorem chartData_sorted (swaps : List Swap) :
    (chartData swaps).Pairwise (fun a b => a.x ≤ b.x) := by
  have h := @List.sorted_insertionSort ChartPoint (fun a b => a.x ≤ b.x)
    (fun a b => Nat.decLe a.x b.x) ⟨fun a b => Nat.le_total a.x b.x⟩
    ⟨fun _ _ _ hab hbc => Nat.le_trans hab hbc⟩
    ((aggregatedData swaps).map (fun e => ChartPoint.mk e.1 e.2.1 e.2.2))
  exact h

theorem cexSwaps_desc :
    cexSwaps.Pairwise (fun a b => b.timestamp ≤ a.timestamp) := by
  refine List.pairwise_append.mpr ⟨?_, ?_, ?_⟩
  · exact List.pairwise_replicate.mpr (Or.inr le_rfl)
  · simp
  · intro a ha b hb
    rw [List.mem_replicate] at ha
    rw [List.mem_singleton] at hb
    rw [ha.2, hb]
    norm_num

theorem aggregateData_cexSwaps :
    aggregateData cexSwaps = [⟨200000, 0⟩, ⟨100000, 0⟩] := by
  have hrep : (List.replicate 100 (⟨"0xc", 0, 200, "USDC", "WETH"⟩ : Swap)).length = 100 := by
    simp
  have hrep_ne : (List.replicate 100 (⟨"0xc", 0, 200, "USDC", "WETH"⟩ : Swap)) ≠ [] := by
    apply List.ne_nil_of_length_pos
    rw [hrep]
    norm_num
  have happ : aggregateData cexSwaps =
      aggregateChunk (List.replicate 100 (⟨"0xc", 0, 200, "USDC", "WETH"⟩ : Swap)) ::
        aggregateData [⟨"0xd", 0, 100, "USDC", "WETH"⟩] := by
    rw [cexSwaps, aggregateData_eq_of_ne_nil _ (by simp), List.take_left' hrep,
      List.drop_left' hrep]
  rw [happ, aggregateData_small _ (by simp) (by simp)]
  norm_num [aggregateChunk, List.map_replicate, List.sum_replicate, nsmul_eq_mul]

/-- C2 as stated is false on the count-bucket code: cexSwaps is ordered by
timestamp descending as fetched, yet the count-bucket aggregation, which
performs no sort, hands the chart a bucket sequence that is not ordered by
time ascending. -/
theorem claim_C2_counterexample :
    cexSwaps.Pairwise (fun a b => b.timestamp ≤ a.timestamp) ∧
      ¬ (aggregateData cexSwaps).Pairwise (fun p q => p.x ≤ q.x) := by
  refine ⟨cexSwaps_desc, ?_⟩
  intro hpair
  rw [aggregateData_cexSwaps] at hpair
  have h12 := (List.pairwise_cons.mp hpair).1 ⟨100000, 0⟩ (by simp)
  norm_num at h12

/-- C2 amended: the time-bucket chart series is ordered by time ascending
(it is sorted before charting), while the count-bucket series, which is
never sorted, is ordered by time descending (non-increasing bucket
timestamps) whenever the input swap list arrives ordered by timestamp
descending as fetched. -/
theorem claim_C2_bucket_ordering (swaps : List Swap) :
    (chartData swaps).Pairwise (fun a b => a.x ≤ b.x) ∧
      (swaps.Pairwise (fun a b => b.timestamp ≤ a.timestamp) →
        (aggregateData swaps).Pairwise (fun p q => q.x ≤ p.x)) :=
  ⟨chartData_sorted swaps, fun h => aggregateData_antitone swaps h⟩

/-- Witness for C2 amended at the descending 101-swap list cexSwaps. -/
theorem claim_C2_bucket_ordering_witness :
    (chartData cexSwaps).Pairwise (fun a b => a.x ≤ b.x) ∧
      (aggregateData cexSwaps).Pairwise (fun p q => q.x ≤ p.x) :=
  ⟨(claim_C2_bucket_ordering cexSwaps).1,
    (claim_C2_bucket_ordering cexSwaps).2 cexSwaps_desc⟩

theorem getLast?_cons_of_ne_nil {α : Type} (a : α) (l : List α) (h : l ≠ []) :
    (a :: l).getLast? = l.getLast? := by
  cases l with
  | nil => exact absurd rfl h
  | cons b t => exact List.getLast?_cons_cons

theorem aggregateData_getLast_aux (n : ℕ) : ∀ l : List Swap, l.length ≤ n → l ≠ [] →
    (aggregateData l).getLast? =
      some (aggregateChunk (l.drop (100 * ((l.length - 1) / 100)))) := by
  induction n with
  | zero =>
    intro l hn hne
    exact absurd (List.length_eq_zero.mp (Nat.le_zero.mp hn)) hne
  | succ n ih =>
    intro l hn hne
    by_cases h100 : l.length ≤ 100
    · rw [aggregateData_small l hne h100]
      have hdiv : 100 * ((l.length - 1) / 100) = 0 := by omega
      rw [hdiv, List.drop_zero]
      rfl
    · push_neg at h100
      have hdrop_ne : l.drop 100 ≠ [] := by
        apply List.ne_nil_of_length_pos
        rw [List.length_drop]
        omega
      rw [aggregateData_eq_of_ne_nil l hne,
        getLast?_cons_of_ne_nil _ _ (aggregateData_ne_nil _ hdrop_ne),
        ih (l.drop 100) (by rw [List.length_drop]; omega) hdrop_ne,
        List.drop_drop, List.length_drop]
      have harith : 100 + 100 * ((l.length - 100 - 1) / 100) =
          100 * ((l.length - 1) / 100) := by omega
      rw [harith]

theorem aggregateData_getLast (l : List Swap) (h : l ≠ []) :
    (aggregateData l).getLast? =
      some (aggregateChunk (l.drop (100 * ((l.length - 1) / 100)))) :=
  aggregateData_getLast_aux l.length l le_rfl h

/-- C6: When the input length is not a multiple of 100, the final point of
the count-bucket series is the aggregate of the remainder chunk (length
input length mod 100, at least 1), computed with the same formula as full
chunks: total is the chunk sum of amounts and the representative timestamp
is the chunk average over the chunk's actual length. -/
theorem claim_C6_remainder_chunk (swaps : List Swap) (h : swaps.length % 100 ≠ 0) :
    (aggregateData swaps).getLast? =
        some (aggregateChunk (swaps.drop (100 * (swaps.length / 100)))) ∧
      (swaps.drop (100 * (swaps.length / 100))).length = swaps.length % 100 ∧
      1 ≤ (swaps.drop (100 * (swaps.length / 100))).length ∧
      (aggregateChunk (swaps.drop (100 * (swaps.length / 100)))).y =
        ((swaps.drop (100 * (swaps.length / 100))).map Swap.amountUSD).sum ∧
      (aggregateChunk (swaps.drop (100 * (swaps.length / 100)))).x =
        ((swaps.drop (100 * (swaps.length / 100))).map
            (fun s => (s.timestamp : ℚ))).sum /
          ((swaps.drop (100 * (swaps.length / 100))).length : ℚ) * 1000 := by
  have hne : swaps ≠ [] := by
    intro e
    subst e
    simp at h
  have hdiv : 100 * (swaps.length / 100) = 100 * ((swaps.length - 1) / 100) := by omega
  refine ⟨?_, ?_, ?_, rfl, rfl⟩
  · rw [hdiv]
    exact aggregateData_getLast swaps hne
  · rw [List.length_drop]
    omega
  · rw [List.length_drop]
    omega

/-- Witness for C6 at a two-swap list, whose single chunk is the remainder
chunk of length 2. -/
theorem claim_C6_remainder_chunk_witness :
    [swapA, swapB].length % 100 ≠ 0 ∧
      ((aggregateData [swapA, swapB]).getLast? =
          some (aggregateChunk ([swapA, swapB].drop (100 * ([swapA, swapB].length / 100)))) ∧
        ([swapA, swapB].drop (100 * ([swapA, swapB].length / 100))).length =
          [swapA, swapB].length % 100 ∧
        1 ≤ ([swapA, swapB].drop (100 * ([swapA, swapB].length / 100))).length ∧
        (aggregateChunk ([swapA, swapB].drop (100 * ([swapA, swapB].length / 100)))).y =
          (([swapA, swapB].drop (100 * ([swapA, swapB].length / 100))).map
            Swap.amountUSD).sum ∧
        (aggregateChunk ([swapA, swapB].drop (100 * ([swapA, swapB].length / 100)))).x =
          (([swapA, swapB].drop (100 * ([swapA, swapB].length / 100))).map
              (fun s => (s.timestamp : ℚ))).sum /
            (([swapA, swapB].drop (100 * ([swapA, swapB].length / 100))).length : ℚ) *
            1000) :=
  ⟨by norm_num, claim_C6_remainder_chunk [swapA, swapB] (by norm_num)⟩

theorem aggregateChunk_proj_eq (c1 c2 : List Swap) (h : c1.map proj = c2.map proj) :
    aggregateChunk c1 = aggregateChunk c2 := by
  have hlen : c1.length = c2.length := by
    have := congrArg List.length h
    simpa using this
  have hts_fun : ∀ c : List Swap,
      c.map (fun s => (s.timestamp : ℚ)) = (c.map proj).map (fun p => (p.2 : ℚ)) := by
    intro c
    rw [List.map_map]
    rfl
  have hamt_fun : ∀ c : List Swap,
      c.map Swap.amountUSD = (c.map proj).map Prod.fst := by
    intro c
    rw [List.map_map]
    rfl
  unfold aggregateChunk
  rw [hts_fun c1, hts_fun c2, hamt_fun c1, hamt_fun c2, h, hlen]

theorem aggregateData_proj_aux (n : ℕ) : ∀ l1 l2 : List Swap, l1.length ≤ n →
    l1.map proj = l2.map proj → aggregateData l1 = aggregateData l2 := by
  induction n with
  | zero =>
    intro l1 l2 hn h
    have h1 : l1 = [] := List.length_eq_zero.mp (Nat.le_zero.mp hn)
    subst h1
    have h2 : l2 = [] := by
      have := h.symm
      rw [List.map_nil] at this
      exact List.map_eq_nil_iff.mp this
    subst h2
    rfl
  | succ n ih =>
    intro l1 l2 hn h
    cases l1 with
    | nil =>
      have h2 : l2 = [] := by
        have := h.symm
        rw [List.map_nil] at this
        exact List.map_eq_nil_iff.mp this
      subst h2
      rfl
    | cons s rest =>
      cases l2 with
      | nil => simp at h
      | cons t rest2 =>
        rw [aggregateData_cons, aggregateData_cons]
        congr 1
        · apply aggregateChunk_proj_eq
          rw [List.map_take, List.map_take, h]
        · apply ih
          · rw [List.length_drop]
            simp only [List.length_cons] at hn ⊢
            omega
          · rw [List.map_drop, List.map_drop, h]

theorem foldl_bump_proj (l1 : List Swap) : ∀ (l2 : List Swap) (acc : List (ℕ × ℚ × ℕ)),
    l1.map proj = l2.map proj →
    l1.foldl (fun acc s => bumpKey (roundTimestamp s.timestamp) s.amountUSD acc) acc =
      l2.foldl (fun acc s => bumpKey (roundTimestamp s.timestamp) s.amountUSD acc) acc := by
  induction l1 with
  | nil =>
    intro l2 acc h
    have h2 : l2 = [] := by
      have := h.symm
      rw [List.map_nil] at this
      exact List.map_eq_nil_iff.mp this
    subst h2
    rfl
  | cons a t ih =>
    intro l2 acc h
    cases l2 with
    | nil => simp at h
    | cons b t2 =>
      rw [List.map_cons, List.map_cons] at h
      have hhead : proj a = proj b := (List.cons.injEq _ _ _ _ ▸ h).1
      have htail : t.map proj = t2.map proj := (List.cons.injEq _ _ _ _ ▸ h).2
      have hamt : a.amountUSD = b.amountUSD := congrArg Prod.fst hhead
      have hts : a.timestamp = b.timestamp := congrArg Prod.snd hhead
      rw [List.foldl_cons, List.foldl_cons, hamt, hts]
      exact ih t2 _ htail

theorem chartData_proj (l1 l2 : List Swap) (h : l1.map proj = l2.map proj) :
    chartData l1 = chartData l2 := by
  rw [chartData, chartData, aggregatedData, aggregatedData, foldl_bump_proj l1 l2 [] h]

/-- C10: Both aggregation functions are deterministic pure functions of the
input list, and their output depends only on the amountUSD and timestamp
fields of the input swaps: inputs agreeing on those fields produce
identical bucket sequences, regardless of swap ids or token symbols.
(Determinism of two evaluations on the same list is the case l1 = l2.) -/
theorem claim_C10_output_determined_by_fields (l1 l2 : List Swap)
    (h : l1.map proj = l2.map proj) :
    aggregateData l1 = aggregateData l2 ∧ chartData l1 = chartData l2 :=
  ⟨aggregateData_proj_aux l1.length l1 l2 le_rfl h, chartData_proj l1 l2 h⟩

/-- Witness for C10: swapA and swapC differ in id and token symbols but
agree on amountUSD and timestamp. -/
theorem claim_C10_output_determined_by_fields_witness :
    [swapA].map proj = [swapC].map proj ∧
      (aggregateData [swapA] = aggregateData [swapC] ∧
        chartData [swapA] = chartData [swapC]) :=
  ⟨rfl, claim_C10_output_determined_by_fields [swapA] [swapC] rfl⟩

end UniswapAnalytics
